import Mathlib

/-
  Verification of the simpleEA backtest-artifact reconstruction and
  robustness-validation pipeline.

  The definitions below are shallow embeddings of the Python sources:
    * src/parser/trade_extractor.py   (TradeExtractor._parse_deals)
    * src/optimizer/result_parser.py  (OptimizationResultParser.parse)
    * src/tester/montecarlo.py        (MonteCarloSimulator)
    * src/tester/walk_forward.py      (WalkForwardTester._fold_windows, _add_months)
    * src/scripts/run_walk_forward.py (summary aggregation, _median)
    * src/scripts/generate_dashboard.py (optimization summary with percentiles)

  Machine floats are modelled as exact rationals; Python dictionaries of
  stacks are modelled as functions from keys to lists; the HTML/XML regex
  scraping layer is out of scope, so each embedded routine starts from the
  already-matched row values.
-/

namespace SimpleEA

/-! ## Trade extractor (src/parser/trade_extractor.py) -/

/-- One row matched by the deals-table regex in `TradeExtractor._parse_deals`,
with the numeric fields already converted by `_parse_float` / `_parse_int`
(unparsable fields become zero there) and text fields stripped/lowercased as
in the source. -/
structure DealRow where
  time : String
  deal_id : Int
  symbol : String
  deal_type : String
  direction : String
  volume : ℚ
  price : ℚ
  order_id : Int
  commission : ℚ
  swap : ℚ
  profit : ℚ
  balance : ℚ
  comment : String
deriving DecidableEq

/-- The `Trade` dataclass of trade_extractor.py. -/
structure Trade where
  deal_id : Int
  time : String
  symbol : String
  direction : String
  volume : ℚ
  entry_price : ℚ
  exit_price : ℚ
  commission : ℚ
  swap : ℚ
  profit : ℚ
  net_profit : ℚ
  comment : String
deriving DecidableEq

/-- The pending-open record pushed on `open_positions[(symbol, deal_type)]`
by an "in" deal. -/
structure OpenEntry where
  deal_id : Int
  time : String
  symbol : String
  direction : String
  volume : ℚ
  price : ℚ
  commission : ℚ
  swap : ℚ
  balance_before : ℚ
deriving DecidableEq

/-- The loop state of `TradeExtractor._parse_deals`: accumulated trades and
totals plus the per-(symbol, direction) stacks of pending opens.  The head of
each list is the most recently pushed entry (Python appends and pops at the
end of the list). -/
structure ParseState where
  trades : List Trade
  initial_balance : ℚ
  final_balance : ℚ
  total_commission : ℚ
  total_swap : ℚ
  previous_balance : Option ℚ
  open_positions : String × String → List OpenEntry

/-- Value of the local `balance_before` at the top of the loop body:
the previous row's positive balance when one was seen, else this row's. -/
def balance_before_of (previous_balance : Option ℚ) (balance : ℚ) : ℚ :=
  match previous_balance with
  | some p => p
  | none => balance

/-- The `Trade(...)` constructed for a closing ("out") deal, from the popped
entry (or the synthesized zero-basis values when no pending open existed). -/
def mkTradeFromClose (r : DealRow) (open_dir : String) (entry : Option OpenEntry)
    (balance_before : ℚ) : Trade :=
  let entry_price := match entry with | some e => e.price | none => 0
  let trade_direction := match entry with | some e => e.direction | none => open_dir
  let entry_commission := match entry with | some e => e.commission | none => 0
  let entry_swap := match entry with | some e => e.swap | none => 0
  let entry_balance_before := match entry with | some e => e.balance_before | none => balance_before
  { deal_id := r.deal_id
    time := r.time
    symbol := r.symbol
    direction := trade_direction
    volume := r.volume
    entry_price := entry_price
    exit_price := r.price
    commission := entry_commission + r.commission
    swap := entry_swap + r.swap
    profit := r.profit
    net_profit :=
      if 0 < r.balance then r.balance - entry_balance_before
      else r.profit + entry_commission + r.commission + entry_swap + r.swap
    comment := r.comment }

/-- One iteration of the row loop of `TradeExtractor._parse_deals`. -/
def processRow (s : ParseState) (r : DealRow) : ParseState :=
  let balance_before := balance_before_of s.previous_balance r.balance
  let previous' := if 0 < r.balance then some r.balance else s.previous_balance
  let initial' :=
    if r.deal_type = "balance" ∧ s.initial_balance = 0 then r.profit else s.initial_balance
  let final' := if 0 < r.balance then r.balance else s.final_balance
  if r.deal_type = "buy" ∨ r.deal_type = "sell" then
    let s1 : ParseState :=
      { s with
        previous_balance := previous'
        initial_balance := initial'
        final_balance := final'
        total_commission := s.total_commission + r.commission
        total_swap := s.total_swap + r.swap }
    if r.direction = "in" then
      let key := (r.symbol, r.deal_type)
      { s1 with
        open_positions := fun k =>
          if k = key then
            { deal_id := r.deal_id
              time := r.time
              symbol := r.symbol
              direction := r.deal_type
              volume := r.volume
              price := r.price
              commission := r.commission
              swap := r.swap
              balance_before := balance_before } :: s1.open_positions k
          else s1.open_positions k }
    else if r.direction = "out" then
      let open_dir := if r.deal_type = "buy" then "sell" else "buy"
      let key := (r.symbol, open_dir)
      match s1.open_positions key with
      | entry :: rest =>
          { s1 with
            trades := s1.trades ++ [mkTradeFromClose r open_dir (some entry) balance_before]
            open_positions := fun k => if k = key then rest else s1.open_positions k }
      | [] =>
          { s1 with
            trades := s1.trades ++ [mkTradeFromClose r open_dir none balance_before] }
    else s1
  else
    { s with
      previous_balance := previous'
      initial_balance := initial'
      final_balance := final' }

/-- Initial loop state of `_parse_deals`. -/
def initState : ParseState :=
  { trades := []
    initial_balance := 0
    final_balance := 0
    total_commission := 0
    total_swap := 0
    previous_balance := none
    open_positions := fun _ => [] }

/-- The deals loop of `TradeExtractor._parse_deals`, applied to the already
regex-matched rows in document order. -/
def parse_deals (rows : List DealRow) : ParseState :=
  rows.foldl processRow initState

/-- Sum of `net_profit` over a trade list (the source's `total_net_profit`). -/
def sumNetProfit (ts : List Trade) : ℚ :=
  (ts.map (fun t => t.net_profit)).sum

/-- An opening ("in") deal row carrying no balance value (the balance column
of entry deals is blank in MT5 reports, hence parsed as zero). -/
def openDeal (sym t : String) (p : ℚ) : DealRow :=
  { time := ""
    deal_id := 0
    symbol := sym
    deal_type := t
    direction := "in"
    volume := 1
    price := p
    order_id := 0
    commission := 0
    swap := 0
    profit := 0
    balance := 0
    comment := "" }

/-- A closing ("out") deal row with realized profit and running balance. -/
def closeDeal (sym t : String) (p prof bal : ℚ) : DealRow :=
  { time := ""
    deal_id := 0
    symbol := sym
    deal_type := t
    direction := "out"
    volume := 1
    price := p
    order_id := 0
    commission := 0
    swap := 0
    profit := prof
    balance := bal
    comment := "" }

/-- A non-trading balance row (deposit) with the given amount. -/
def depositDeal (amount : ℚ) : DealRow :=
  { time := ""
    deal_id := 0
    symbol := ""
    deal_type := "balance"
    direction := ""
    volume := 0
    price := 0
    order_id := 0
    commission := 0
    swap := 0
    profit := amount
    balance := amount
    comment := "" }

/-- C2: last-in-first-out matching.  For two opens O1 then O2 on the same
(instrument, side) followed by closes of the opposite side, the first close is
paired with O2 and the next close with O1; and on the concrete 3-deal input
(open buy EURUSD @1.1000, open buy EURUSD @1.1010, close sell EURUSD @1.1050)
exactly one Trade is produced, with entry 1.1010 and exit 1.1050, while the
1.1000 open is left pending. -/
theorem C2_lifo_matching :
    (∀ (sym : String) (p1 p2 q1 q2 : ℚ),
      (parse_deals [openDeal sym "buy" p1, openDeal sym "buy" p2,
        closeDeal sym "sell" q1 0 0, closeDeal sym "sell" q2 0 0]).trades.map
          (fun t => (t.entry_price, t.exit_price)) = [(p2, q1), (p1, q2)]) ∧
    ((parse_deals [openDeal "EURUSD" "buy" (11000/10000), openDeal "EURUSD" "buy" (11010/10000),
        closeDeal "EURUSD" "sell" (11050/10000) 0 0]).trades.map
          (fun t => (t.entry_price, t.exit_price)) = [(11010/10000, 11050/10000)] ∧
      ((parse_deals [openDeal "EURUSD" "buy" (11000/10000), openDeal "EURUSD" "buy" (11010/10000),
        closeDeal "EURUSD" "sell" (11050/10000) 0 0]).open_positions ("EURUSD", "buy")).map
          (fun e => e.price) = [11000/10000]) := by
  refine ⟨fun sym p1 p2 q1 q2 => ?_, ?_, ?_⟩ <;>
    simp [parse_deals, processRow, initState, openDeal, closeDeal,
      balance_before_of, mkTradeFromClose]

/-- Deal log with two overlapping long positions closed in LIFO order, used to
refute unconditional balance conservation: each close's net profit is the
balance delta measured from the balance before its matched OPEN, so the inner
position's profit is double-counted by the outer one. -/
def overlapRows : List DealRow :=
  [depositDeal 1000,
   openDeal "EURUSD" "buy" 1,
   openDeal "EURUSD" "buy" 1,
   closeDeal "EURUSD" "sell" 1 10 1010,
   closeDeal "EURUSD" "sell" 1 20 1030]

/-- C1 counterexample: on `overlapRows` both balance markers are present
(first balance row seeds initial_balance = 1000, the last balance-carrying row
has positive balance 1030), yet initial_balance + Σ net_profit = 1040 ≠ 1030:
the extractor's balance-delta reconciliation double-counts overlapping
positions. -/
theorem C1_balance_conservation_cex :
    (parse_deals overlapRows).initial_balance = 1000 ∧
    (parse_deals overlapRows).final_balance = 1030 ∧
    sumNetProfit (parse_deals overlapRows).trades = 40 ∧
    (parse_deals overlapRows).initial_balance + sumNetProfit (parse_deals overlapRows).trades ≠
      (parse_deals overlapRows).final_balance := by
  refine ⟨?_, ?_, ?_, ?_⟩ <;>
    simp [overlapRows, parse_deals, processRow, initState, depositDeal, openDeal,
      closeDeal, balance_before_of, mkTradeFromClose, sumNetProfit] <;>
    norm_num

/-- One sequential round trip: an open deal immediately followed by its close
(the close row carries the realized profit and the running balance; the open
row's balance column is blank, as in MT5 deal logs). -/
structure TradeBlock where
  sym : String
  long : Bool
  open_price : ℚ
  close_price : ℚ
  close_profit : ℚ
  close_balance : ℚ

/-- Deal type of the block's opening leg. -/
def TradeBlock.openType (b : TradeBlock) : String := if b.long then "buy" else "sell"

/-- Deal type of the block's closing leg (the opposite side). -/
def TradeBlock.closeType (b : TradeBlock) : String := if b.long then "sell" else "buy"

/-- The two deal rows of a sequential round trip. -/
def blockRows (b : TradeBlock) : List DealRow :=
  [openDeal b.sym b.openType b.open_price,
   closeDeal b.sym b.closeType b.close_price b.close_profit b.close_balance]

/-- Deal rows of a list of sequential round trips. -/
def seqRows : List TradeBlock → List DealRow
  | [] => []
  | b :: bs => blockRows b ++ seqRows bs

/-- A deal log consisting of one initial deposit row followed by sequential,
non-overlapping round trips. -/
def seqLog (D : ℚ) (blocks : List TradeBlock) : List DealRow :=
  depositDeal D :: seqRows blocks

/-- Invariant between round trips: no pending opens, and the last seen
positive balance B is also the current final_balance. -/
def SeqInv (s : ParseState) (B : ℚ) : Prop :=
  (∀ k, s.open_positions k = []) ∧ s.previous_balance = some B ∧ s.final_balance = B

/-- Balance reported on the close of the last block (B when there is none). -/
def lastBal (B : ℚ) : List TradeBlock → ℚ
  | [] => B
  | b :: bs => lastBal b.close_balance bs

theorem seq_block_step (s : ParseState) (B : ℚ) (b : TradeBlock)
    (hinv : SeqInv s B) (hbal : 0 < b.close_balance) :
    SeqInv (List.foldl processRow s (blockRows b)) b.close_balance ∧
    (List.foldl processRow s (blockRows b)).initial_balance = s.initial_balance ∧
    sumNetProfit (List.foldl processRow s (blockRows b)).trades
      = sumNetProfit s.trades + (b.close_balance - B) := by
  obtain ⟨hopen, hprev, hfin⟩ := hinv
  cases hb : b.long <;>
    simp [blockRows, TradeBlock.openType, TradeBlock.closeType, openDeal, closeDeal, hb,
      processRow, balance_before_of, mkTradeFromClose, hprev, hopen, hbal, SeqInv,
      sumNetProfit]

theorem seq_fold (blocks : List TradeBlock) :
    ∀ (s : ParseState) (B : ℚ), SeqInv s B → (∀ b ∈ blocks, 0 < b.close_balance) →
    SeqInv (List.foldl processRow s (seqRows blocks)) (lastBal B blocks) ∧
    (List.foldl processRow s (seqRows blocks)).initial_balance = s.initial_balance ∧
    sumNetProfit (List.foldl processRow s (seqRows blocks)).trades
      = sumNetProfit s.trades + (lastBal B blocks - B) := by
  induction blocks with
  | nil =>
    intro s B hinv _
    simpa [seqRows, lastBal] using hinv
  | cons b bs ih =>
    intro s B hinv hbal
    have hb : 0 < b.close_balance := hbal b (by simp)
    have hstep := seq_block_step s B b hinv hb
    have hrest := ih (List.foldl processRow s (blockRows b)) b.close_balance hstep.1
      (fun x hx => hbal x (by simp [hx]))
    refine ⟨?_, ?_, ?_⟩
    · simpa [seqRows, List.foldl_append, lastBal] using hrest.1
    · simp only [seqRows, List.foldl_append]
      rw [hrest.2.1, hstep.2.1]
    · simp only [seqRows, List.foldl_append, lastBal]
      rw [hrest.2.2, hstep.2.2]
      ring

/-- C1 (amended): balance conservation holds for deal logs of the shape the
extractor's balance-delta reconciliation is built for: a single initial
deposit row followed by sequential, non-overlapping round trips whose close
rows carry a positive running balance.  Then
initial_balance + Σ net_profit = final_balance exactly. -/
theorem C1_balance_conservation_sequential (D : ℚ) (blocks : List TradeBlock)
    (hD : 0 < D) (hbal : ∀ b ∈ blocks, 0 < b.close_balance) :
    (parse_deals (seqLog D blocks)).initial_balance +
      sumNetProfit (parse_deals (seqLog D blocks)).trades
      = (parse_deals (seqLog D blocks)).final_balance := by
  have hdep : processRow initState (depositDeal D) =
      { trades := []
        initial_balance := D
        final_balance := D
        total_commission := 0
        total_swap := 0
        previous_balance := some D
        open_positions := fun _ => [] } := by
    simp [processRow, initState, depositDeal, balance_before_of, hD]
  have hrw : parse_deals (seqLog D blocks)
      = List.foldl processRow (processRow initState (depositDeal D)) (seqRows blocks) := by
    simp [parse_deals, seqLog]
  have hinv : SeqInv (processRow initState (depositDeal D)) D := by
    rw [hdep]; exact ⟨fun _ => rfl, rfl, rfl⟩
  have h := seq_fold blocks (processRow initState (depositDeal D)) D hinv hbal
  rw [hrw, h.2.1, h.2.2, h.1.2.2, hdep]
  simp [sumNetProfit]

/-- Concrete single round trip used to witness the amended C1 theorem. -/
def c1WitnessBlock : TradeBlock :=
  { sym := "EURUSD", long := true, open_price := 1, close_price := 2,
    close_profit := 10, close_balance := 1010 }

theorem C1_balance_conservation_witness :
    ((0 : ℚ) < 1000 ∧ ∀ b ∈ [c1WitnessBlock], 0 < b.close_balance) ∧
    ((parse_deals (seqLog 1000 [c1WitnessBlock])).initial_balance +
      sumNetProfit (parse_deals (seqLog 1000 [c1WitnessBlock])).trades
      = (parse_deals (seqLog 1000 [c1WitnessBlock])).final_balance) :=
  ⟨⟨by norm_num,
    by
      intro b hb
      simp only [List.mem_singleton] at hb
      subst hb
      norm_num [c1WitnessBlock]⟩,
   C1_balance_conservation_sequential 1000 [c1WitnessBlock] (by norm_num)
     (by
       intro b hb
       simp only [List.mem_singleton] at hb
       subst hb
       norm_num [c1WitnessBlock])⟩

/-! ## Optimization result parser (src/optimizer/result_parser.py) -/

/-- Per-pass record produced by `OptimizationResultParser._parse_xml`,
restricted to the fields the join in `parse` reads. -/
structure PassRec where
  profit : ℚ
  profit_factor : ℚ
  equity_dd_pct : ℚ
  trades : Int
  parameters : List (String × String)
deriving DecidableEq

/-- The `RobustResult` dataclass of result_parser.py. -/
structure RobustResult where
  pass_num : Int
  in_sample_profit : ℚ
  in_sample_pf : ℚ
  in_sample_dd : ℚ
  in_sample_trades : Int
  forward_profit : ℚ
  forward_pf : ℚ
  forward_dd : ℚ
  forward_trades : Int
  total_profit : ℚ
  is_robust : Bool
  parameters : List (String × String)
deriving DecidableEq

/-- The `RobustResult(...)` constructed in the join loop of `parse`. -/
def mkRobustResult (pass_num : Int) (insample forward : PassRec) : RobustResult :=
  { pass_num := pass_num
    in_sample_profit := insample.profit
    in_sample_pf := insample.profit_factor
    in_sample_dd := insample.equity_dd_pct
    in_sample_trades := insample.trades
    forward_profit := forward.profit
    forward_pf := forward.profit_factor
    forward_dd := forward.equity_dd_pct
    forward_trades := forward.trades
    total_profit := insample.profit + forward.profit
    is_robust := decide (0 < insample.profit) && decide (0 < forward.profit)
    parameters := insample.parameters }

/-- The join loop of `parse`: one `RobustResult` per in-sample pass number
also present in the forward table (inner join on pass number, iterating the
in-sample table in order). -/
def joinResults (insample forward : List (Int × PassRec)) : List RobustResult :=
  insample.filterMap fun pr => (forward.lookup pr.1).map (mkRobustResult pr.1 pr.2)

/-- Order used by `robust_only.sort(key=lambda x: x.total_profit, reverse=True)`. -/
def byTotalProfitDesc (a b : RobustResult) : Prop :=
  b.total_profit ≤ a.total_profit

instance : DecidableRel byTotalProfitDesc :=
  fun a b => inferInstanceAs (Decidable (b.total_profit ≤ a.total_profit))

instance : IsTotal RobustResult byTotalProfitDesc :=
  ⟨fun a b => le_total b.total_profit a.total_profit⟩

instance : IsTrans RobustResult byTotalProfitDesc :=
  ⟨fun _ _ _ hab hbc => le_trans hbc hab⟩

/-- The robust subset of the join, sorted by total profit descending. -/
def robustSorted (insample forward : List (Int × PassRec)) : List RobustResult :=
  List.insertionSort byTotalProfitDesc
    ((joinResults insample forward).filter (fun r => r.is_robust))

/-- Success payload of `OptimizationResultParser.parse` (the join part;
`param_names` comes from the XML header scrape, outside this embedding). -/
structure ParseOutput where
  total_passes : ℕ
  robust_passes : ℕ
  best : Option RobustResult
  top_5 : List RobustResult
deriving DecidableEq

namespace OptimizationResultParser

/-- The result-combination logic of `OptimizationResultParser.parse`, starting
from the two already-parsed per-pass tables. -/
def parse (insample forward : List (Int × PassRec)) : ParseOutput :=
  let robust_results := joinResults insample forward
  let robust_only := robustSorted insample forward
  { total_passes := robust_results.length
    robust_passes := robust_only.length
    best := robust_only.head?
    top_5 := robust_only.take 5 }

end OptimizationResultParser

/-- In-sample record of the C3 boundary example (pass 7, profit 120). -/
def c3InsRec : PassRec :=
  { profit := 120, profit_factor := 0, equity_dd_pct := 0, trades := 0, parameters := [] }

/-- Forward record of the C3 boundary example (pass 7, profit -5). -/
def c3FwdRec : PassRec :=
  { profit := -5, profit_factor := 0, equity_dd_pct := 0, trades := 0, parameters := [] }

/-- C3: a joined pass is robust iff its in-sample profit and its forward
profit are both strictly positive (and its total profit is their sum); the
robust set is sorted by total profit descending and best is its maximum;
and on the input (pass 7: in-sample profit 120, forward profit -5) the result
has robust_passes = 0 and best = none. -/
theorem C3_robust_and_semantics :
    (∀ (insample forward : List (Int × PassRec)) (r : RobustResult),
      r ∈ joinResults insample forward →
        ((r.is_robust = true ↔ 0 < r.in_sample_profit ∧ 0 < r.forward_profit) ∧
          r.total_profit = r.in_sample_profit + r.forward_profit)) ∧
    (∀ insample forward : List (Int × PassRec),
      List.Sorted byTotalProfitDesc (robustSorted insample forward)) ∧
    (∀ (insample forward : List (Int × PassRec)) (b : RobustResult),
      (OptimizationResultParser.parse insample forward).best = some b →
        b.is_robust = true ∧
        ∀ r ∈ (joinResults insample forward).filter (fun r => r.is_robust),
          r.total_profit ≤ b.total_profit) ∧
    ((OptimizationResultParser.parse [(7, c3InsRec)] [(7, c3FwdRec)]).robust_passes = 0 ∧
      (OptimizationResultParser.parse [(7, c3InsRec)] [(7, c3FwdRec)]).best = none) := by
  refine ⟨?_, ?_, ?_, ?_⟩
  · intro insample forward r hr
    simp only [joinResults, List.mem_filterMap, Option.map_eq_some'] at hr
    obtain ⟨⟨p, rec⟩, _, fwd, _, rfl⟩ := hr
    simp [mkRobustResult, decide_eq_true_eq]
  · intro insample forward
    exact List.sorted_insertionSort byTotalProfitDesc _
  · intro insample forward b hb
    have hperm := List.perm_insertionSort byTotalProfitDesc
      ((joinResults insample forward).filter (fun r => r.is_robust))
    have hsorted := List.sorted_insertionSort byTotalProfitDesc
      ((joinResults insample forward).filter (fun r => r.is_robust))
    simp only [OptimizationResultParser.parse, robustSorted] at hb
    have hex : ∃ t, List.insertionSort byTotalProfitDesc
        ((joinResults insample forward).filter (fun r => r.is_robust)) = b :: t := by
      cases hL : List.insertionSort byTotalProfitDesc
          ((joinResults insample forward).filter (fun r => r.is_robust)) with
      | nil => rw [hL] at hb; simp at hb
      | cons x t =>
        rw [hL] at hb
        simp only [List.head?_cons, Option.some.injEq] at hb
        exact ⟨t, by rw [hb]⟩
    obtain ⟨t, hL⟩ := hex
    rw [hL] at hperm hsorted
    have hbmem : b ∈ (joinResults insample forward).filter (fun r => r.is_robust) :=
      hperm.subset (by simp)
    refine ⟨(List.mem_filter.mp hbmem).2, ?_⟩
    intro r hr
    have hrbt : r ∈ b :: t := hperm.symm.subset hr
    rcases List.mem_cons.mp hrbt with rfl | hrt
    · exact le_refl _
    · exact List.rel_of_sorted_cons hsorted r hrt
  · constructor <;> decide

theorem length_filterMap_eq_countP {α β : Type} (f : α → Option β) (l : List α) :
    (l.filterMap f).length = l.countP (fun a => (f a).isSome) := by
  induction l with
  | nil => simp
  | cons a l ih =>
    cases h : f a <;> simp [List.filterMap_cons, h, List.countP_cons, ih]

theorem lookup_isSome_iff {α β : Type} [DecidableEq α] (a : α) (l : List (α × β)) :
    (l.lookup a).isSome = true ↔ a ∈ l.map Prod.fst := by
  induction l with
  | nil => simp [List.lookup]
  | cons p l ih =>
    rcases p with ⟨k, v⟩
    by_cases h : a = k
    · subst h
      simp [List.lookup]
    · simp [List.lookup, beq_false_of_ne h, ih, h]

/-- C10: the reported total_passes is the inner-join size, the number of pass
numbers present in both tables, and robust_passes never exceeds it. -/
theorem C10_inner_join_cardinality (insample forward : List (Int × PassRec))
    (hins : (insample.map Prod.fst).Nodup) :
    (OptimizationResultParser.parse insample forward).total_passes
      = ((insample.map Prod.fst).toFinset ∩ (forward.map Prod.fst).toFinset).card ∧
    (OptimizationResultParser.parse insample forward).robust_passes ≤
      (OptimizationResultParser.parse insample forward).total_passes := by
  constructor
  · have h1 : (OptimizationResultParser.parse insample forward).total_passes
        = insample.countP (fun pr => (forward.lookup pr.1).isSome) := by
      simp only [OptimizationResultParser.parse, joinResults]
      rw [length_filterMap_eq_countP]
      congr 1
      funext pr
      cases h : forward.lookup pr.1 <;> simp [h]
    have h2 : insample.countP (fun pr => (forward.lookup pr.1).isSome)
        = (insample.map Prod.fst).countP (fun x => decide (x ∈ forward.map Prod.fst)) := by
      rw [List.countP_map]
      congr 1
      funext pr
      simp only [Function.comp]
      by_cases h : pr.1 ∈ forward.map Prod.fst
      · simp [h, (lookup_isSome_iff pr.1 forward).mpr h]
      · have hfalse : (forward.lookup pr.1).isSome = false := by
          rw [Bool.eq_false_iff]
          intro hc
          exact h ((lookup_isSome_iff pr.1 forward).mp hc)
        simp [hfalse, h]
    rw [h1, h2, List.countP_eq_length_filter]
    have hnd : ((insample.map Prod.fst).filter
        (fun x => decide (x ∈ forward.map Prod.fst))).Nodup := hins.filter _
    rw [← List.toFinset_card_of_nodup hnd, List.toFinset_filter]
    congr 1
    rw [← Finset.filter_mem_eq_inter]
    apply Finset.filter_congr
    intro x _
    simp
  · simp only [OptimizationResultParser.parse, robustSorted]
    rw [(List.perm_insertionSort byTotalProfitDesc _).length_eq]
    exact List.length_filter_le _ _

theorem C10_inner_join_cardinality_witness :
    ([(1, c3InsRec), (2, c3InsRec)].map (Prod.fst (β := PassRec))).Nodup ∧
    ((OptimizationResultParser.parse [(1, c3InsRec), (2, c3InsRec)]
        [(2, c3FwdRec), (3, c3FwdRec)]).total_passes
      = (([(1, c3InsRec), (2, c3InsRec)].map Prod.fst).toFinset ∩
          (([(2, c3FwdRec), (3, c3FwdRec)].map Prod.fst).toFinset)).card ∧
      (OptimizationResultParser.parse [(1, c3InsRec), (2, c3InsRec)]
          [(2, c3FwdRec), (3, c3FwdRec)]).robust_passes ≤
        (OptimizationResultParser.parse [(1, c3InsRec), (2, c3InsRec)]
            [(2, c3FwdRec), (3, c3FwdRec)]).total_passes) :=
  ⟨by decide,
   C10_inner_join_cardinality [(1, c3InsRec), (2, c3InsRec)] [(2, c3FwdRec), (3, c3FwdRec)]
     (by decide)⟩

/-! ## Monte Carlo simulator (src/tester/montecarlo.py) -/

/-- The `EquityCurveStats` dataclass. -/
structure EquityCurveStats where
  final_equity : ℚ
  max_drawdown : ℚ
  max_drawdown_pct : ℚ
  peak_equity : ℚ
  lowest_equity : ℚ
  ruin_occurred : Bool
deriving DecidableEq

/-- The `MonteCarloResult` dataclass.  `profit_std` in the source is
`math.sqrt` of the sample variance; the square root is real-valued and no
claim concerns it, so the embedded field carries the radicand (the sample
variance itself), keeping the development computable. -/
structure MonteCarloResult where
  iterations : ℕ
  initial_balance : ℚ
  median_profit : ℚ
  mean_profit : ℚ
  profit_std : ℚ
  profit_5th_percentile : ℚ
  profit_95th_percentile : ℚ
  median_max_drawdown : ℚ
  mean_max_drawdown : ℚ
  max_drawdown_95th_percentile : ℚ
  confidence_level : ℚ
  probability_of_ruin : ℚ
  ruin_threshold_pct : ℚ
  original_profit : ℚ
  original_drawdown : ℚ
  trade_count : ℕ
deriving DecidableEq

/-- Python `int()` on a rational: truncation toward zero. -/
def pyInt (q : ℚ) : Int := if 0 ≤ q then ⌊q⌋ else ⌈q⌉

/-- Python list indexing by a possibly negative integer (negative indices
count from the end).  Out-of-range access raises in Python; the embedding
returns 0 there, and every use reached by the claims stays in range. -/
def pyIdx (l : List ℚ) (i : Int) : ℚ :=
  if 0 ≤ i then l.getD i.toNat 0 else l.getD (l.length - (-i).toNat) 0

namespace MonteCarloSimulator

/-- `MonteCarloSimulator._percentile`: linear interpolation between order
statistics at rank (n-1)·p/100 over the sorted data. -/
def percentile (data : List ℚ) (p : ℚ) : ℚ :=
  if data = [] then 0
  else
    let sorted_data := List.insertionSort (· ≤ ·) data
    let k : ℚ := ((data.length : ℚ) - 1) * (p / 100)
    let f : Int := ⌊k⌋
    let c : Int := ⌈k⌉
    if f = c then pyIdx sorted_data (pyInt k)
    else pyIdx sorted_data f * ((c : ℚ) - k) + pyIdx sorted_data c * (k - (f : ℚ))

/-- `MonteCarloSimulator._std`, up to the final real-valued `math.sqrt`:
the sample variance (N-1 denominator), 0 for fewer than two data points. -/
def std (data : List ℚ) : ℚ :=
  if data.length < 2 then 0
  else
    let mean := data.sum / (data.length : ℚ)
    (data.map (fun x => (x - mean) ^ 2)).sum / ((data.length : ℚ) - 1)

/-- Loop state of `_calculate_equity_stats` (the locals of the profit loop). -/
structure EqState where
  equity : ℚ
  peak : ℚ
  max_drawdown : ℚ
  max_drawdown_pct : ℚ
  lowest : ℚ
  ruin_occurred : Bool

/-- One iteration of the profit loop of `_calculate_equity_stats`. -/
def equityStep (ruin_threshold : ℚ) (s : EqState) (profit : ℚ) : EqState :=
  let equity := s.equity + profit
  let peak := if s.peak < equity then equity else s.peak
  let lowest := if equity < s.lowest then equity else s.lowest
  let drawdown := peak - equity
  { equity := equity
    peak := peak
    max_drawdown := if s.max_drawdown < drawdown then drawdown else s.max_drawdown
    max_drawdown_pct :=
      if s.max_drawdown < drawdown then (if 0 < peak then drawdown / peak * 100 else 0)
      else s.max_drawdown_pct
    lowest := lowest
    ruin_occurred := s.ruin_occurred || decide (equity ≤ ruin_threshold) }

/-- `MonteCarloSimulator._calculate_equity_stats`. -/
def calculate_equity_stats (ruin_threshold_pct : ℚ) (profits : List ℚ)
    (initial_balance : ℚ) : EquityCurveStats :=
  let ruin_threshold := initial_balance * (1 - ruin_threshold_pct / 100)
  let s := profits.foldl (equityStep ruin_threshold)
    { equity := initial_balance
      peak := initial_balance
      max_drawdown := 0
      max_drawdown_pct := 0
      lowest := initial_balance
      ruin_occurred := false }
  { final_equity := s.equity
    max_drawdown := s.max_drawdown
    max_drawdown_pct := s.max_drawdown_pct
    peak_equity := s.peak
    lowest_equity := s.lowest
    ruin_occurred := s.ruin_occurred }

/-- `MonteCarloSimulator._empty_result`. -/
def empty_result (ruin_threshold_pct initial_balance : ℚ) : MonteCarloResult :=
  { iterations := 0
    initial_balance := initial_balance
    median_profit := 0
    mean_profit := 0
    profit_std := 0
    profit_5th_percentile := 0
    profit_95th_percentile := 0
    median_max_drawdown := 0
    mean_max_drawdown := 0
    max_drawdown_95th_percentile := 0
    confidence_level := 0
    probability_of_ruin := 100
    ruin_threshold_pct := ruin_threshold_pct
    original_profit := 0
    original_drawdown := 0
    trade_count := 0 }

/-- `MonteCarloSimulator.run`.  `random.shuffle` is modelled by the oracle
`shuffle` giving the permuted profit sequence of each iteration; rational
division is total in Lean, so the `mean` divisions that would raise
ZeroDivisionError in Python for `iterations = 0` with nonempty trades yield 0
here (no claim reaches that corner). -/
def run (iterations : ℕ) (ruin_threshold_pct : ℚ) (shuffle : ℕ → List ℚ → List ℚ)
    (trades : List Trade) (initial_balance : ℚ) : MonteCarloResult :=
  if trades = [] then empty_result ruin_threshold_pct initial_balance
  else
    let profits := trades.map fun t => t.net_profit
    let original_profit := profits.sum
    let original_stats := calculate_equity_stats ruin_threshold_pct profits initial_balance
    let results := (List.range iterations).map fun i =>
      calculate_equity_stats ruin_threshold_pct (shuffle i profits) initial_balance
    let final_equities := results.map fun r => r.final_equity - initial_balance
    let max_drawdowns := results.map fun r => r.max_drawdown
    let ruin_count := (results.filter fun r => r.ruin_occurred).length
    { iterations := iterations
      initial_balance := initial_balance
      median_profit := percentile final_equities 50
      mean_profit := final_equities.sum / (final_equities.length : ℚ)
      profit_std := std final_equities
      profit_5th_percentile := percentile final_equities 5
      profit_95th_percentile := percentile final_equities 95
      median_max_drawdown := percentile max_drawdowns 50
      mean_max_drawdown := max_drawdowns.sum / (max_drawdowns.length : ℚ)
      max_drawdown_95th_percentile := percentile max_drawdowns 95
      confidence_level :=
        ((final_equities.filter fun e => 0 < e).length : ℚ) / (final_equities.length : ℚ) * 100
      probability_of_ruin := (ruin_count : ℚ) / (iterations : ℚ) * 100
      ruin_threshold_pct := ruin_threshold_pct
      original_profit := original_profit
      original_drawdown := original_stats.max_drawdown
      trade_count := trades.length }

end MonteCarloSimulator

/-- C4: with zero trades, `run` returns the degenerate `_empty_result`:
iterations = 0, confidence_level = 0, probability_of_ruin = 100, and it does
so for every iteration count, threshold, shuffle source and starting balance
(a total function: no exception, no division by zero). -/
theorem C4_montecarlo_empty (iterations : ℕ) (ruin_threshold_pct initial_balance : ℚ)
    (shuffle : ℕ → List ℚ → List ℚ) :
    MonteCarloSimulator.run iterations ruin_threshold_pct shuffle [] initial_balance
      = MonteCarloSimulator.empty_result ruin_threshold_pct initial_balance ∧
    (MonteCarloSimulator.run iterations ruin_threshold_pct shuffle [] initial_balance).iterations
      = 0 ∧
    (MonteCarloSimulator.run iterations ruin_threshold_pct shuffle []
      initial_balance).confidence_level = 0 ∧
    (MonteCarloSimulator.run iterations ruin_threshold_pct shuffle []
      initial_balance).probability_of_ruin = 100 := by
  refine ⟨?_, ?_, ?_, ?_⟩ <;>
    simp [MonteCarloSimulator.run, MonteCarloSimulator.empty_result]

/-- The successive values taken by the loop local `equity` while replaying a
profit sequence from a starting equity. -/
def runningEquities (equity : ℚ) : List ℚ → List ℚ
  | [] => []
  | p :: ps => (equity + p) :: runningEquities (equity + p) ps

theorem equityStep_equity (thr : ℚ) (s : MonteCarloSimulator.EqState) (p : ℚ) :
    (MonteCarloSimulator.equityStep thr s p).equity = s.equity + p := rfl

theorem equityStep_ruin (thr : ℚ) (s : MonteCarloSimulator.EqState) (p : ℚ) :
    (MonteCarloSimulator.equityStep thr s p).ruin_occurred
      = (s.ruin_occurred || decide (s.equity + p ≤ thr)) := rfl

theorem foldl_equityStep_ruin (thr : ℚ) (profits : List ℚ) :
    ∀ s : MonteCarloSimulator.EqState,
      ((profits.foldl (MonteCarloSimulator.equityStep thr) s).ruin_occurred = true ↔
        s.ruin_occurred = true ∨ ∃ e ∈ runningEquities s.equity profits, e ≤ thr) := by
  induction profits with
  | nil => intro s; simp [runningEquities]
  | cons p ps ih =>
    intro s
    rw [List.foldl_cons, ih]
    simp only [equityStep_equity, equityStep_ruin, runningEquities, List.mem_cons,
      Bool.or_eq_true, decide_eq_true_eq]
    constructor
    · rintro (⟨h | h⟩ | ⟨e, he, hle⟩)
      · exact Or.inl h
      · exact Or.inr ⟨s.equity + p, Or.inl rfl, h⟩
      · exact Or.inr ⟨e, Or.inr he, hle⟩
    · rintro (h | ⟨e, rfl | he, hle⟩)
      · exact Or.inl (Or.inl h)
      · exact Or.inl (Or.inr hle)
      · exact Or.inr ⟨e, he, hle⟩

/-- C6 (amended): the ruin flag of an equity-curve simulation is set iff the
running equity at some point reached the ruin floor
initial_balance · (1 − ruin_threshold_pct/100) — i.e. fell *to or below* it:
the source's check is `equity <= ruin_threshold`, so touching the floor
exactly already counts as ruin. -/
theorem C6_ruin_iff_le_floor (ruin_threshold_pct : ℚ) (profits : List ℚ)
    (initial_balance : ℚ) :
    ((MonteCarloSimulator.calculate_equity_stats ruin_threshold_pct profits
        initial_balance).ruin_occurred = true ↔
      ∃ e ∈ runningEquities initial_balance profits,
        e ≤ initial_balance * (1 - ruin_threshold_pct / 100)) := by
  unfold MonteCarloSimulator.calculate_equity_stats
  rw [foldl_equityStep_ruin]
  simp

/-- C6 counterexample: with initial balance 100 and ruin threshold 50% the
floor is 50; the single trade -50 brings equity exactly to the floor, never
below it, yet the source sets the ruin flag (`equity <= ruin_threshold`),
contradicting the claim's strict "fell below". -/
theorem C6_ruin_boundary_cex :
    (MonteCarloSimulator.calculate_equity_stats 50 [-50] 100).ruin_occurred = true ∧
    ∀ e ∈ runningEquities 100 [-50], ¬(e < 100 * (1 - 50 / 100)) := by
  constructor
  · norm_num [MonteCarloSimulator.calculate_equity_stats, MonteCarloSimulator.equityStep]
  · intro e he
    simp only [runningEquities, List.mem_singleton] at he
    subst he
    norm_num

/-! ## Percentile interpolation (claims about `_percentile`) -/

/-- Linear interpolation between the order statistics at ⌊k⌋ and ⌊k⌋ + 1:
the common normal form of both branches of `_percentile` for k ≥ 0 (when k is
an integer the fractional term vanishes and the possibly out-of-range index
⌊k⌋ + 1 is multiplied by zero). -/
def interpAt (S : List ℚ) (k : ℚ) : ℚ :=
  S.getD ⌊k⌋.toNat 0 + (k - (⌊k⌋ : ℚ)) * (S.getD (⌊k⌋.toNat + 1) 0 - S.getD ⌊k⌋.toNat 0)

theorem sorted_getD_mono {S : List ℚ} (hS : List.Sorted (· ≤ ·) S) {i j : ℕ}
    (hij : i ≤ j) (hj : j < S.length) : S.getD i 0 ≤ S.getD j 0 := by
  have hi : i < S.length := lt_of_le_of_lt hij hj
  rw [List.getD_eq_get S 0 hi, List.getD_eq_get S 0 hj]
  exact hS.rel_get_of_le (a := ⟨i, hi⟩) (b := ⟨j, hj⟩) hij

theorem percentile_eq_interpAt (data : List ℚ) (hne : data ≠ []) (p : ℚ) (hp0 : 0 ≤ p) :
    MonteCarloSimulator.percentile data p
      = interpAt (List.insertionSort (· ≤ ·) data) (((data.length : ℚ) - 1) * (p / 100)) := by
  have hn1 : (1 : ℚ) ≤ (data.length : ℚ) := by
    have h := List.length_pos.mpr hne
    exact_mod_cast h
  simp only [MonteCarloSimulator.percentile, if_neg hne]
  set k : ℚ := ((data.length : ℚ) - 1) * (p / 100) with hk
  have hk0 : 0 ≤ k := mul_nonneg (by linarith) (by positivity)
  have hfl0 : (0 : ℤ) ≤ ⌊k⌋ := Int.floor_nonneg.mpr hk0
  by_cases hfc : ⌊k⌋ = ⌈k⌉
  · rw [if_pos hfc]
    have hkq : (⌊k⌋ : ℚ) = k := by
      have h1 := Int.floor_le k
      have h2 := Int.le_ceil k
      rw [← hfc] at h2
      linarith
    simp only [pyInt, if_pos hk0, pyIdx, if_pos hfl0, interpAt]
    rw [hkq]
    ring
  · rw [if_neg hfc]
    have hceil : ⌈k⌉ = ⌊k⌋ + 1 := by
      have h1 := Int.ceil_le_floor_add_one k
      have h2 := Int.floor_le_ceil k
      omega
    have hcl0 : (0 : ℤ) ≤ ⌈k⌉ := by omega
    have hIdxF : pyIdx (List.insertionSort (· ≤ ·) data) ⌊k⌋
        = (List.insertionSort (· ≤ ·) data).getD ⌊k⌋.toNat 0 := by
      rw [pyIdx, if_pos hfl0]
    have hIdxC : pyIdx (List.insertionSort (· ≤ ·) data) ⌈k⌉
        = (List.insertionSort (· ≤ ·) data).getD (⌊k⌋.toNat + 1) 0 := by
      rw [pyIdx, if_pos hcl0, hceil]
      congr 1
      omega
    rw [hIdxF, hIdxC, interpAt]
    have hc : (⌈k⌉ : ℚ) = (⌊k⌋ : ℚ) + 1 := by
      rw [hceil]
      push_cast
      ring
    rw [hc]
    ring

theorem interpAt_mono {S : List ℚ} (hS : List.Sorted (· ≤ ·) S) {k1 k2 : ℚ}
    (h0 : 0 ≤ k1) (h12 : k1 ≤ k2) (h2 : k2 ≤ (S.length : ℚ) - 1) :
    interpAt S k1 ≤ interpAt S k2 := by
  have hf1 : (0 : ℤ) ≤ ⌊k1⌋ := Int.floor_nonneg.mpr h0
  have hf2 : (0 : ℤ) ≤ ⌊k2⌋ := Int.floor_nonneg.mpr (le_trans h0 h12)
  have hmono : ⌊k1⌋ ≤ ⌊k2⌋ := Int.floor_mono h12
  have hub : ⌊k2⌋ ≤ (S.length : ℤ) - 1 := by
    have h' : (⌊k2⌋ : ℚ) ≤ (S.length : ℚ) - 1 := le_trans (Int.floor_le k2) h2
    exact_mod_cast h'
  have hm2lt : ⌊k2⌋.toNat < S.length := by omega
  have ht1l : (⌊k1⌋ : ℚ) ≤ k1 := Int.floor_le k1
  have ht1u : k1 < (⌊k1⌋ : ℚ) + 1 := Int.lt_floor_add_one k1
  have ht2l : (⌊k2⌋ : ℚ) ≤ k2 := Int.floor_le k2
  by_cases heq : ⌊k1⌋ = ⌊k2⌋
  · by_cases hin : ⌊k2⌋.toNat + 1 < S.length
    · have hba : S.getD ⌊k2⌋.toNat 0 ≤ S.getD (⌊k2⌋.toNat + 1) 0 :=
        sorted_getD_mono hS (Nat.le_succ _) hin
      simp only [interpAt, heq]
      have hmul := mul_le_mul_of_nonneg_right
        (show k1 - (⌊k2⌋ : ℚ) ≤ k2 - (⌊k2⌋ : ℚ) by linarith)
        (show (0 : ℚ) ≤ S.getD (⌊k2⌋.toNat + 1) 0 - S.getD ⌊k2⌋.toNat 0 by linarith)
      linarith
    · have h' : (⌊k2⌋ : ℤ) = (S.length : ℤ) - 1 := by omega
      have hcast : (⌊k2⌋ : ℚ) = (S.length : ℚ) - 1 := by exact_mod_cast h'
      have hk12 : k1 = k2 := by
        have hq : (⌊k1⌋ : ℚ) = (⌊k2⌋ : ℚ) := by exact_mod_cast heq
        linarith
      rw [hk12]
  · have hlt : ⌊k1⌋ < ⌊k2⌋ := lt_of_le_of_ne hmono heq
    have hm1n : ⌊k1⌋.toNat + 1 ≤ ⌊k2⌋.toNat := by omega
    have hm1lt : ⌊k1⌋.toNat + 1 < S.length := lt_of_le_of_lt hm1n hm2lt
    have hstep1 : interpAt S k1 ≤ S.getD (⌊k1⌋.toNat + 1) 0 := by
      have hab : S.getD ⌊k1⌋.toNat 0 ≤ S.getD (⌊k1⌋.toNat + 1) 0 :=
        sorted_getD_mono hS (Nat.le_succ _) (lt_of_le_of_lt hm1n hm2lt)
      simp only [interpAt]
      have hmul := mul_le_mul_of_nonneg_right
        (show k1 - (⌊k1⌋ : ℚ) ≤ 1 by linarith)
        (show (0 : ℚ) ≤ S.getD (⌊k1⌋.toNat + 1) 0 - S.getD ⌊k1⌋.toNat 0 by linarith)
      linarith
    have hstep2 : S.getD (⌊k1⌋.toNat + 1) 0 ≤ S.getD ⌊k2⌋.toNat 0 :=
      sorted_getD_mono hS hm1n hm2lt
    have hstep3 : S.getD ⌊k2⌋.toNat 0 ≤ interpAt S k2 := by
      by_cases hin : ⌊k2⌋.toNat + 1 < S.length
      · have hba : S.getD ⌊k2⌋.toNat 0 ≤ S.getD (⌊k2⌋.toNat + 1) 0 :=
          sorted_getD_mono hS (Nat.le_succ _) hin
        simp only [interpAt]
        have hmul := mul_nonneg
          (show (0 : ℚ) ≤ k2 - (⌊k2⌋ : ℚ) by linarith)
          (show (0 : ℚ) ≤ S.getD (⌊k2⌋.toNat + 1) 0 - S.getD ⌊k2⌋.toNat 0 by linarith)
        linarith
      · have h' : (⌊k2⌋ : ℤ) = (S.length : ℤ) - 1 := by omega
        have hcast : (⌊k2⌋ : ℚ) = (S.length : ℚ) - 1 := by exact_mod_cast h'
        have hfrac : k2 - (⌊k2⌋ : ℚ) = 0 := by linarith
        simp only [interpAt, hfrac, zero_mul, add_zero, le_refl]
    linarith

/-- C7: for nonempty data, `_percentile` at p = 0 is the minimum of the list,
at p = 100 the maximum, and it is monotone in p on [0, 100]. -/
theorem C7_percentile_bounds_mono (data : List ℚ) (hne : data ≠ []) :
    (MonteCarloSimulator.percentile data 0 ∈ data ∧
      ∀ x ∈ data, MonteCarloSimulator.percentile data 0 ≤ x) ∧
    (MonteCarloSimulator.percentile data 100 ∈ data ∧
      ∀ x ∈ data, x ≤ MonteCarloSimulator.percentile data 100) ∧
    (∀ p1 p2 : ℚ, 0 ≤ p1 → p1 ≤ p2 → p2 ≤ 100 →
      MonteCarloSimulator.percentile data p1 ≤ MonteCarloSimulator.percentile data p2) := by
  have hS := List.sorted_insertionSort (· ≤ ·) data
  have hperm := List.perm_insertionSort (· ≤ ·) data
  set S := List.insertionSort (· ≤ ·) data with hSdef
  have hlen : S.length = data.length := hperm.length_eq
  have hdpos : 0 < data.length := List.length_pos.mpr hne
  have hpos : 0 < S.length := by rw [hlen]; exact hdpos
  have hn1 : (1 : ℚ) ≤ (data.length : ℚ) := by exact_mod_cast hdpos
  have hv0 : MonteCarloSimulator.percentile data 0 = S.getD 0 0 := by
    rw [percentile_eq_interpAt data hne 0 le_rfl]
    simp [interpAt]
  have hcast : ((data.length : ℚ) - 1) = ((data.length - 1 : ℕ) : ℚ) := by
    rw [Nat.cast_sub hdpos]
    norm_num
  have hv100 : MonteCarloSimulator.percentile data 100 = S.getD (data.length - 1) 0 := by
    rw [percentile_eq_interpAt data hne 100 (by norm_num)]
    have h100 : ((data.length : ℚ) - 1) * (100 / 100) = ((data.length - 1 : ℕ) : ℚ) := by
      rw [← hcast]; norm_num
    rw [h100]
    simp [interpAt, Int.floor_natCast]
  refine ⟨⟨?_, ?_⟩, ⟨?_, ?_⟩, ?_⟩
  · rw [hv0, List.getD_eq_get S 0 hpos]
    exact hperm.mem_iff.mp (List.get_mem S 0 hpos)
  · intro x hx
    obtain ⟨i, rfl⟩ := List.mem_iff_get.mp (hperm.mem_iff.mpr hx)
    rw [hv0]
    have h := sorted_getD_mono hS (Nat.zero_le i.val) i.isLt
    rwa [List.getD_eq_get S 0 i.isLt] at h
  · have hlt : data.length - 1 < S.length := by omega
    rw [hv100, List.getD_eq_get S 0 hlt]
    exact hperm.mem_iff.mp (List.get_mem S (data.length - 1) hlt)
  · intro x hx
    obtain ⟨i, rfl⟩ := List.mem_iff_get.mp (hperm.mem_iff.mpr hx)
    rw [hv100]
    have hile : i.val ≤ data.length - 1 := by
      have := i.isLt
      omega
    have hlt : data.length - 1 < S.length := by omega
    have h := sorted_getD_mono hS hile hlt
    rwa [List.getD_eq_get S 0 i.isLt] at h
  · intro p1 p2 hp1 hp12 hp2
    rw [percentile_eq_interpAt data hne p1 hp1,
      percentile_eq_interpAt data hne p2 (le_trans hp1 hp12)]
    apply interpAt_mono hS
    · exact mul_nonneg (by linarith) (by positivity)
    · have hd : (0 : ℚ) ≤ (data.length : ℚ) - 1 := by linarith
      have hdiv : p1 / 100 ≤ p2 / 100 := by linarith
      exact mul_le_mul_of_nonneg_left hdiv hd
    · rw [hlen]
      have hd : (0 : ℚ) ≤ (data.length : ℚ) - 1 := by linarith
      have hdiv : p2 / 100 ≤ 1 := by linarith
      calc ((data.length : ℚ) - 1) * (p2 / 100) ≤ ((data.length : ℚ) - 1) * 1 :=
            mul_le_mul_of_nonneg_left hdiv hd
        _ = (data.length : ℚ) - 1 := mul_one _

theorem C7_percentile_bounds_mono_witness :
    (([3, 1, 2] : List ℚ) ≠ []) ∧
    ((MonteCarloSimulator.percentile [3, 1, 2] 0 ∈ ([3, 1, 2] : List ℚ) ∧
      ∀ x ∈ ([3, 1, 2] : List ℚ), MonteCarloSimulator.percentile [3, 1, 2] 0 ≤ x) ∧
    (MonteCarloSimulator.percentile [3, 1, 2] 100 ∈ ([3, 1, 2] : List ℚ) ∧
      ∀ x ∈ ([3, 1, 2] : List ℚ), x ≤ MonteCarloSimulator.percentile [3, 1, 2] 100) ∧
    (∀ p1 p2 : ℚ, 0 ≤ p1 → p1 ≤ p2 → p2 ≤ 100 →
      MonteCarloSimulator.percentile [3, 1, 2] p1 ≤
        MonteCarloSimulator.percentile [3, 1, 2] p2)) :=
  ⟨by simp, C7_percentile_bounds_mono [3, 1, 2] (by simp)⟩

/-! ## Dashboard optimization summary (src/scripts/generate_dashboard.py) -/

/-- The `_percentile` helper of generate_dashboard.py: expects an ascending
pre-sorted list, clamps p at the extremes (`sorted_vals[0]` / `sorted_vals[-1]`),
and otherwise interpolates between order statistics at rank (n-1)·p/100. -/
def dashPercentile (sorted_vals : List ℚ) (p : ℚ) : ℚ :=
  if sorted_vals = [] then 0
  else if p ≤ 0 then pyIdx sorted_vals 0
  else if 100 ≤ p then pyIdx sorted_vals (-1)
  else
    let k : ℚ := ((sorted_vals.length : ℚ) - 1) * (p / 100)
    let f : Int := ⌊k⌋
    let c : Int := ⌈k⌉
    if f = c then pyIdx sorted_vals (pyInt k)
    else pyIdx sorted_vals f * ((c : ℚ) - k) + pyIdx sorted_vals c * (k - (f : ℚ))

/-- One element of the `joined` list built in generate_dashboard.py's `main`
from a pass number present in both optimization tables. -/
structure DashRow where
  pass_num : Int
  in_profit : ℚ
  fwd_profit : ℚ
  in_pf : ℚ
  fwd_pf : ℚ
  in_dd : ℚ
  fwd_dd : ℚ
  in_trades : Int
  fwd_trades : Int
  total_profit : ℚ
  parameters : List (String × String)
deriving DecidableEq

/-- The joined record built for a pass found in both tables. -/
def mkDashRow (p : Int) (insr fwdr : PassRec) : DashRow :=
  { pass_num := p
    in_profit := insr.profit
    fwd_profit := fwdr.profit
    in_pf := insr.profit_factor
    fwd_pf := fwdr.profit_factor
    in_dd := insr.equity_dd_pct
    fwd_dd := fwdr.equity_dd_pct
    in_trades := insr.trades
    fwd_trades := fwdr.trades
    total_profit := insr.profit + fwdr.profit
    parameters := insr.parameters }

/-- The `joined` list: inner join of the two tables on pass number. -/
def dashJoined (ins fwd : List (Int × PassRec)) : List DashRow :=
  ins.filterMap fun pr => (fwd.lookup pr.1).map (mkDashRow pr.1 pr.2)

/-- Robust filter of the dashboard join:
`[r for r in joined if r["in_profit"] > 0 and r["fwd_profit"] > 0]`. -/
def dashRobustFilter (ins fwd : List (Int × PassRec)) : List DashRow :=
  (dashJoined ins fwd).filter fun r => decide (0 < r.in_profit) && decide (0 < r.fwd_profit)

/-- Order used by `robust_rows.sort(key=lambda r: r["total_profit"], reverse=True)`. -/
def byDashTotalDesc (a b : DashRow) : Prop :=
  b.total_profit ≤ a.total_profit

instance : DecidableRel byDashTotalDesc :=
  fun a b => inferInstanceAs (Decidable (b.total_profit ≤ a.total_profit))

instance : IsTotal DashRow byDashTotalDesc :=
  ⟨fun a b => le_total b.total_profit a.total_profit⟩

instance : IsTrans DashRow byDashTotalDesc :=
  ⟨fun _ _ _ hab hbc => le_trans hbc hab⟩

/-- `robust_rows` after the descending in-place sort. -/
def dashRobustRows (ins fwd : List (Int × PassRec)) : List DashRow :=
  List.insertionSort byDashTotalDesc (dashRobustFilter ins fwd)

/-- The `opt_summary` dict assembled in generate_dashboard.py's `main`
(scatter points omitted: pure presentation data). -/
structure OptSummary where
  total_passes : ℕ
  robust_passes : ℕ
  best : Option DashRow
  fwd_p5 : ℚ
  fwd_p50 : ℚ
  fwd_p95 : ℚ
deriving DecidableEq

/-- The dashboard's optimization summary: join, robust filter, descending
sort, then 5th/50th/95th percentiles of the ascending-sorted forward profits
of the robust rows. -/
def optSummary (ins fwd : List (Int × PassRec)) : OptSummary :=
  let joined := dashJoined ins fwd
  let robust_rows := dashRobustRows ins fwd
  let fwd_profits := List.insertionSort (· ≤ ·) (robust_rows.map fun r => r.fwd_profit)
  { total_passes := joined.length
    robust_passes := robust_rows.length
    best := robust_rows.head?
    fwd_p5 := dashPercentile fwd_profits 5
    fwd_p50 := dashPercentile fwd_profits 50
    fwd_p95 := dashPercentile fwd_profits 95 }

/-- Percentile by rank interpolation as worded in the specification: sort the
values ascending, take rank = (n-1)·p/100, and interpolate linearly between
the order statistics at the floor and ceiling ranks (the order statistic
itself at an integer rank; 0 for an empty list). -/
def specPercentileByRank (values : List ℚ) (p : ℚ) : ℚ :=
  if values = [] then 0
  else
    let S := List.insertionSort (· ≤ ·) values
    let rank : ℚ := ((values.length : ℚ) - 1) * (p / 100)
    if ⌊rank⌋ = ⌈rank⌉ then S.getD ⌊rank⌋.toNat 0
    else S.getD ⌊rank⌋.toNat 0 * ((⌈rank⌉ : ℚ) - rank)
      + S.getD ⌈rank⌉.toNat 0 * (rank - (⌊rank⌋ : ℚ))

theorem sortAsc_map_sortDesc (L : List DashRow) :
    List.insertionSort (· ≤ ·)
        ((List.insertionSort byDashTotalDesc L).map fun r => r.fwd_profit)
      = List.insertionSort (· ≤ ·) (L.map fun r => r.fwd_profit) := by
  exact List.eq_of_perm_of_sorted (r := (· ≤ ·))
    ((List.perm_insertionSort _ _).trans
      (((List.perm_insertionSort byDashTotalDesc L).map _).trans
        (List.perm_insertionSort _ _).symm))
    (List.sorted_insertionSort _ _) (List.sorted_insertionSort _ _)

theorem dashPercentile_eq_spec (values : List ℚ) (p : ℚ) (hp0 : 0 < p) (hp1 : p < 100) :
    dashPercentile (List.insertionSort (· ≤ ·) values) p = specPercentileByRank values p := by
  by_cases hne : values = []
  · subst hne
    simp [dashPercentile, specPercentileByRank]
  · have hlen : (List.insertionSort (· ≤ ·) values).length = values.length :=
      (List.perm_insertionSort (· ≤ ·) values).length_eq
    have hSne : List.insertionSort (· ≤ ·) values ≠ [] := by
      intro h
      apply hne
      rw [← List.length_eq_zero, ← hlen, h]
      rfl
    rw [dashPercentile, if_neg hSne, if_neg (by linarith : ¬ p ≤ 0),
      if_neg (by linarith : ¬ 100 ≤ p), specPercentileByRank, if_neg hne]
    have hn1 : (1 : ℚ) ≤ (values.length : ℚ) := by
      have h := List.length_pos.mpr hne
      exact_mod_cast h
    rw [hlen]
    set k : ℚ := ((values.length : ℚ) - 1) * (p / 100) with hk
    have hk0 : 0 ≤ k := mul_nonneg (by linarith) (by positivity)
    have hfl0 : (0 : ℤ) ≤ ⌊k⌋ := Int.floor_nonneg.mpr hk0
    have hcl0 : (0 : ℤ) ≤ ⌈k⌉ := le_trans hfl0 (Int.floor_le_ceil k)
    by_cases hfc : ⌊k⌋ = ⌈k⌉
    · rw [if_pos hfc, if_pos hfc, pyInt, if_pos hk0, pyIdx, if_pos hfl0]
    · rw [if_neg hfc, if_neg hfc, pyIdx, if_pos hfl0, pyIdx, if_pos hcl0]

/-- C8: the dashboard's optimization summary carries the 5th/50th/95th
percentiles of forward profit, computed only over the robust subset of the
joined passes, by the spec's rank interpolation (rank = (n-1)·p/100 over the
sorted order statistics). -/
theorem C8_forward_profit_percentiles (ins fwd : List (Int × PassRec)) :
    (optSummary ins fwd).fwd_p5
        = specPercentileByRank ((dashRobustFilter ins fwd).map fun r => r.fwd_profit) 5 ∧
    (optSummary ins fwd).fwd_p50
        = specPercentileByRank ((dashRobustFilter ins fwd).map fun r => r.fwd_profit) 50 ∧
    (optSummary ins fwd).fwd_p95
        = specPercentileByRank ((dashRobustFilter ins fwd).map fun r => r.fwd_profit) 95 := by
  have key : ∀ p : ℚ, 0 < p → p < 100 →
      dashPercentile (List.insertionSort (· ≤ ·)
          ((dashRobustRows ins fwd).map fun r => r.fwd_profit)) p
        = specPercentileByRank ((dashRobustFilter ins fwd).map fun r => r.fwd_profit) p := by
    intro p h0 h1
    rw [dashRobustRows, sortAsc_map_sortDesc]
    exact dashPercentile_eq_spec _ p h0 h1
  exact ⟨key 5 (by norm_num) (by norm_num), key 50 (by norm_num) (by norm_num),
    key 95 (by norm_num) (by norm_num)⟩

/-! ## Walk-forward fold scheduler (src/tester/walk_forward.py) -/

/-- A calendar date (`datetime.date`), ordered lexicographically by
(year, month, day) as Python date comparison does. -/
structure Date where
  year : ℕ
  month : ℕ
  day : ℕ
deriving DecidableEq

/-- Strict Python date order. -/
def Date.lt (a b : Date) : Prop :=
  a.year < b.year ∨ (a.year = b.year ∧
    (a.month < b.month ∨ (a.month = b.month ∧ a.day < b.day)))

/-- Non-strict Python date order. -/
def Date.le (a b : Date) : Prop := Date.lt a b ∨ a = b

instance (a b : Date) : Decidable (Date.lt a b) := by
  unfold Date.lt
  infer_instance

instance (a b : Date) : Decidable (Date.le a b) := by
  unfold Date.le
  infer_instance

theorem Date.eq_iff {a b : Date} :
    a = b ↔ a.year = b.year ∧ a.month = b.month ∧ a.day = b.day := by
  cases a
  cases b
  simp

theorem Date.le_iff {a b : Date} : Date.le a b ↔
    (a.year < b.year ∨ (a.year = b.year ∧
      (a.month < b.month ∨ (a.month = b.month ∧ a.day ≤ b.day)))) := by
  unfold Date.le Date.lt
  rw [Date.eq_iff]
  omega

theorem Date.not_lt {a b : Date} : ¬ Date.lt a b ↔ Date.le b a := by
  unfold Date.lt
  rw [Date.le_iff]
  omega

theorem Date.le_refl (a : Date) : Date.le a a := Or.inr rfl

theorem Date.le_of_lt {a b : Date} (h : Date.lt a b) : Date.le a b := Or.inl h

/-- `calendar.isleap`. -/
def isLeap (y : ℕ) : Bool :=
  decide (y % 4 = 0 ∧ (y % 100 ≠ 0 ∨ y % 400 = 0))

/-- `calendar.monthrange(year, month)[1]`: the number of days of the month. -/
def daysInMonth (y m : ℕ) : ℕ :=
  if m = 2 then (if isLeap y then 29 else 28)
  else if m = 4 ∨ m = 6 ∨ m = 9 ∨ m = 11 then 30
  else 31

/-- `_add_months` of walk_forward.py: calendar-month addition clamping the
day-of-month to the target month's last valid day.  The month count is a
natural number: every call site ultimately adds the positive
min_is/fold/step month parameters. -/
def add_months (d : Date) (months : ℕ) : Date :=
  let month0 := d.month - 1 + months
  { year := d.year + month0 / 12
    month := month0 % 12 + 1
    day := min d.day (daysInMonth (d.year + month0 / 12) (month0 % 12 + 1)) }

theorem add_months_month_bounds (d : Date) (m : ℕ) :
    1 ≤ (add_months d m).month ∧ (add_months d m).month ≤ 12 := by
  unfold add_months
  simp only
  omega

theorem lt_add_months (d : Date) (m : ℕ) (hm : 1 ≤ m) (hmon : 1 ≤ d.month) :
    Date.lt d (add_months d m) := by
  unfold add_months Date.lt
  simp only
  omega

/-- One walk-forward fold window, as produced by `_fold_windows` (the source
formats the four dates back to strings; the formatting round-trip is not
modelled). -/
structure FoldWindow where
  is_from : Date
  is_to : Date
  oos_from : Date
  oos_to : Date
deriving DecidableEq

namespace WalkForwardTester

/-- The while loop of `_fold_windows`.  Python bounds the loop by
`len(folds) < max_folds` while appending one window per iteration; the fuel
argument is the number of windows still allowed. -/
def fold_windows_loop (fold_months step_months : ℕ) (start endD : Date) :
    ℕ → Date → List FoldWindow
  | 0, _ => []
  | rem + 1, oos_start =>
    if Date.lt oos_start endD then
      let is_start := start
      let is_end := oos_start
      let oos_end0 := add_months oos_start fold_months
      let oos_end := if Date.lt endD oos_end0 then endD else oos_end0
      if Date.le is_end is_start ∨ Date.le oos_end oos_start then []
      else
        { is_from := is_start, is_to := is_end, oos_from := oos_start, oos_to := oos_end } ::
          fold_windows_loop fold_months step_months start endD rem
            (add_months oos_start step_months)
    else []

/-- `WalkForwardTester._fold_windows`. -/
def fold_windows (min_is_months fold_months step_months max_folds : ℕ)
    (start endD : Date) : List FoldWindow :=
  if Date.le endD start then []
  else fold_windows_loop fold_months step_months start endD max_folds
    (add_months start min_is_months)

theorem fold_windows_loop_spec (fold_months step_months : ℕ) (start endD : Date)
    (hstep : 1 ≤ step_months) :
    ∀ (rem : ℕ) (os : Date), 1 ≤ os.month →
      (∀ f ∈ fold_windows_loop fold_months step_months start endD rem os,
        Date.le f.oos_to endD) ∧
      (∀ f, (fold_windows_loop fold_months step_months start endD rem os).head? = some f →
        f.oos_from = os) ∧
      List.Chain' (fun f g => Date.le f.oos_from g.oos_from)
        (fold_windows_loop fold_months step_months start endD rem os) ∧
      (fold_windows_loop fold_months step_months start endD rem os).length ≤ rem := by
  intro rem
  induction rem with
  | zero =>
    intro os _
    simp [fold_windows_loop]
  | succ rem ih =>
    intro os hos
    rw [fold_windows_loop]
    by_cases hlt : Date.lt os endD
    · rw [if_pos hlt]
      by_cases hbrk : Date.le os start ∨
          Date.le (if Date.lt endD (add_months os fold_months) then endD
            else add_months os fold_months) os
      · rw [if_pos hbrk]
        simp
      · rw [if_neg hbrk]
        have hnext := ih (add_months os step_months) (add_months_month_bounds os step_months).1
        refine ⟨?_, ?_, ?_, ?_⟩
        · intro f hf
          rcases List.mem_cons.mp hf with rfl | hf'
          · simp only
            split
            · exact Date.le_refl endD
            · rename_i hnl
              exact Date.not_lt.mp hnl
          · exact hnext.1 f hf'
        · intro f hf
          simp only [List.head?_cons, Option.some.injEq] at hf
          rw [← hf]
        · rw [List.chain'_cons']
          refine ⟨?_, hnext.2.2.1⟩
          intro g hg
          have hgo : g.oos_from = add_months os step_months := hnext.2.1 g hg
          rw [hgo]
          exact Date.le_of_lt (lt_add_months os step_months hstep hos)
        · simp only [List.length_cons]
          exact Nat.succ_le_succ hnext.2.2.2
    · rw [if_neg hlt]
      simp

end WalkForwardTester

/-- C5: for a nonempty range and positive fold-shape parameters, the fold
windows have non-decreasing out-of-sample start dates, no out-of-sample
window ends after the range end, the first out-of-sample window starts
exactly min_is_months calendar months after the range start, and at most
max_folds windows are generated. -/
theorem C5_fold_windows (min_is_months fold_months step_months max_folds : ℕ)
    (start endD : Date) (hse : Date.lt start endD) (hmin : 1 ≤ min_is_months)
    (hfold : 1 ≤ fold_months) (hstep : 1 ≤ step_months) :
    List.Chain' (fun f g => Date.le f.oos_from g.oos_from)
      (WalkForwardTester.fold_windows min_is_months fold_months step_months max_folds
        start endD) ∧
    (∀ f ∈ WalkForwardTester.fold_windows min_is_months fold_months step_months max_folds
        start endD, Date.le f.oos_to endD) ∧
    (∀ f, (WalkForwardTester.fold_windows min_is_months fold_months step_months max_folds
        start endD).head? = some f → f.oos_from = add_months start min_is_months) ∧
    (WalkForwardTester.fold_windows min_is_months fold_months step_months max_folds
        start endD).length ≤ max_folds := by
  have hne : ¬ Date.le endD start := by
    rw [Date.le_iff]
    unfold Date.lt at hse
    omega
  unfold WalkForwardTester.fold_windows
  rw [if_neg hne]
  have h := WalkForwardTester.fold_windows_loop_spec fold_months step_months start endD
    hstep max_folds (add_months start min_is_months)
    (add_months_month_bounds start min_is_months).1
  exact ⟨h.2.2.1, h.1, h.2.1, h.2.2.2⟩

theorem C5_fold_windows_witness :
    (Date.lt ⟨2020, 1, 1⟩ ⟨2022, 1, 1⟩ ∧ 1 ≤ 12 ∧ 1 ≤ 6 ∧ 1 ≤ 6) ∧
    (List.Chain' (fun f g => Date.le f.oos_from g.oos_from)
      (WalkForwardTester.fold_windows 12 6 6 12 ⟨2020, 1, 1⟩ ⟨2022, 1, 1⟩) ∧
    (∀ f ∈ WalkForwardTester.fold_windows 12 6 6 12 ⟨2020, 1, 1⟩ ⟨2022, 1, 1⟩,
      Date.le f.oos_to ⟨2022, 1, 1⟩) ∧
    (∀ f, (WalkForwardTester.fold_windows 12 6 6 12 ⟨2020, 1, 1⟩
        ⟨2022, 1, 1⟩).head? = some f → f.oos_from = add_months ⟨2020, 1, 1⟩ 12) ∧
    (WalkForwardTester.fold_windows 12 6 6 12 ⟨2020, 1, 1⟩ ⟨2022, 1, 1⟩).length ≤ 12) :=
  ⟨⟨by decide, by norm_num, by norm_num, by norm_num⟩,
   C5_fold_windows 12 6 6 12 ⟨2020, 1, 1⟩ ⟨2022, 1, 1⟩ (by decide) (by norm_num)
     (by norm_num) (by norm_num)⟩

/-! ## Walk-forward cross-fold summary (src/scripts/run_walk_forward.py) -/

/-- Out-of-sample metrics of one fold as read by the summary loop of `main`
(only the two fields it extracts). -/
structure OOSMetrics where
  profit_factor : ℚ
  roi_pct : ℚ
deriving DecidableEq

/-- One fold record as seen by the summary loop: `d["oos"]["metrics"]` is
`None` exactly when the fold's out-of-sample report failed to parse. -/
structure WFFold where
  oos_metrics : Option OOSMetrics
deriving DecidableEq

/-- `float(om.get("profit_factor") or 0.0)`: a failed fold (no metrics dict)
coerces to 0.0. -/
def foldPF (f : WFFold) : ℚ :=
  match f.oos_metrics with
  | some m => m.profit_factor
  | none => 0

/-- `float(om.get("roi_pct") or 0.0)`. -/
def foldROI (f : WFFold) : ℚ :=
  match f.oos_metrics with
  | some m => m.roi_pct
  | none => 0

/-- `_median` of run_walk_forward.py.  Its `x is not None` pre-filter is
vacuous at both call sites (the lists hold plain floats), so the model takes
plain rationals. -/
def median (xs : List ℚ) : Option ℚ :=
  if xs = [] then none
  else
    let xs2 := List.insertionSort (· ≤ ·) xs
    let n := xs2.length
    let mid := n / 2
    if n % 2 = 1 then some (xs2.getD mid 0)
    else some ((xs2.getD (mid - 1) 0 + xs2.getD mid 0) / 2)

/-- The `summary` dict assembled in run_walk_forward.py's `main`. -/
structure WFSummary where
  folds_total : ℕ
  oos_pass_pf_15 : ℕ
  oos_pf_median : Option ℚ
  oos_pf_worst : Option ℚ
  oos_roi_median : Option ℚ
  oos_roi_worst : Option ℚ
deriving DecidableEq

/-- The cross-fold summary: the loop appends one pf and one roi value per
fold (failed folds included, coerced to 0.0), then takes medians and minima.
`min(xs) if xs else None` is `List.min?`. -/
def wfSummary (min_pf : ℚ) (folds : List WFFold) : WFSummary :=
  let oos_pfs := folds.map foldPF
  let oos_rois := folds.map foldROI
  { folds_total := folds.length
    oos_pass_pf_15 := (folds.filter fun f => decide (min_pf ≤ foldPF f)).length
    oos_pf_median := median oos_pfs
    oos_pf_worst := oos_pfs.min?
    oos_roi_median := median oos_rois
    oos_roi_worst := oos_rois.min? }

/-- The folds whose out-of-sample report parsed successfully. -/
def survivors (folds : List WFFold) : List WFFold :=
  folds.filter fun f => f.oos_metrics.isSome

theorem median_perm {xs ys : List ℚ} (h : xs.Perm ys) : median xs = median ys := by
  by_cases hx : xs = []
  · subst hx
    rw [h.symm.eq_nil]
  · have hy : ys ≠ [] := by
      intro hy
      exact hx (by rw [hy] at h; exact h.eq_nil)
    have hs : List.insertionSort (· ≤ ·) xs = List.insertionSort (· ≤ ·) ys :=
      List.eq_of_perm_of_sorted (r := (· ≤ ·))
        ((List.perm_insertionSort _ _).trans (h.trans (List.perm_insertionSort _ _).symm))
        (List.sorted_insertionSort _ _) (List.sorted_insertionSort _ _)
    rw [median, median, if_neg hx, if_neg hy, hs]

instance : Std.Antisymm (fun x1 x2 : ℚ => x1 ≤ x2) :=
  ⟨fun h1 h2 => le_antisymm h1 h2⟩

theorem min?_eq_head_sort (xs : List ℚ) :
    xs.min? = (List.insertionSort (· ≤ ·) xs).head? := by
  by_cases hx : xs = []
  · subst hx
    rfl
  · have hperm := List.perm_insertionSort (· ≤ ·) xs
    have hsorted := List.sorted_insertionSort (· ≤ ·) xs
    cases hS : List.insertionSort (· ≤ ·) xs with
    | nil =>
      exfalso
      apply hx
      rw [← List.length_eq_zero, ← hperm.length_eq, hS]
      rfl
    | cons a t =>
      rw [hS] at hperm hsorted
      rw [List.head?_cons]
      rw [List.min?_eq_some_iff (fun q => le_refl q) (fun q r => min_choice q r)
        (fun q r s => le_min_iff)]
      constructor
      · exact hperm.subset (by simp)
      · intro b hb
        rcases List.mem_cons.mp (hperm.mem_iff.mpr hb) with rfl | hbt
        · exact le_refl b
        · exact List.rel_of_sorted_cons hsorted b hbt

theorem min?_perm {xs ys : List ℚ} (h : xs.Perm ys) : xs.min? = ys.min? := by
  rw [min?_eq_head_sort, min?_eq_head_sort,
    List.eq_of_perm_of_sorted (r := (· ≤ ·))
      ((List.perm_insertionSort _ _).trans (h.trans (List.perm_insertionSort _ _).symm))
      (List.sorted_insertionSort _ _) (List.sorted_insertionSort _ _)]

theorem summary_values_perm (folds : List WFFold) (value : WFFold → ℚ)
    (hzero : ∀ f : WFFold, f.oos_metrics = none → value f = 0) :
    (folds.map value).Perm ((survivors folds).map value
      ++ List.replicate (folds.length - (survivors folds).length) 0) := by
  have hperm0 := List.filter_append_perm (fun f => f.oos_metrics.isSome) folds
  have hlen : (folds.filter fun f => !f.oos_metrics.isSome).length
      = folds.length - (survivors folds).length := by
    have hl := hperm0.length_eq
    rw [List.length_append] at hl
    simp only [survivors]
    omega
  have hrep : (folds.filter fun f => !f.oos_metrics.isSome).map value
      = List.replicate (folds.length - (survivors folds).length) 0 := by
    rw [List.eq_replicate]
    refine ⟨by rw [List.length_map, hlen], ?_⟩
    intro b hb
    simp only [List.mem_map, List.mem_filter] at hb
    obtain ⟨f, ⟨_, hf⟩, rfl⟩ := hb
    apply hzero
    cases hm : f.oos_metrics with
    | some m => rw [hm] at hf; simp at hf
    | none => rfl
  rw [← hrep, ← List.map_append]
  exact ((hperm0.map value).symm)

/-- C9 (amended): a fold whose out-of-sample report failed to parse is not
excluded from the cross-fold aggregates; each failed fold contributes one 0.0
profit-factor entry and one 0.0 ROI entry (`or 0.0` coercion), so the medians
and minima are taken over the survivors' values padded with one zero per
failed fold. -/
theorem C9_summary_failed_folds_zero (min_pf : ℚ) (folds : List WFFold) :
    (wfSummary min_pf folds).oos_pf_median
      = median ((survivors folds).map foldPF
          ++ List.replicate (folds.length - (survivors folds).length) 0) ∧
    (wfSummary min_pf folds).oos_pf_worst
      = ((survivors folds).map foldPF
          ++ List.replicate (folds.length - (survivors folds).length) 0).min? ∧
    (wfSummary min_pf folds).oos_roi_median
      = median ((survivors folds).map foldROI
          ++ List.replicate (folds.length - (survivors folds).length) 0) ∧
    (wfSummary min_pf folds).oos_roi_worst
      = ((survivors folds).map foldROI
          ++ List.replicate (folds.length - (survivors folds).length) 0).min? := by
  have hpf := summary_values_perm folds foldPF (fun f hf => by simp [foldPF, hf])
  have hroi := summary_values_perm folds foldROI (fun f hf => by simp [foldROI, hf])
  exact ⟨median_perm hpf, min?_perm hpf, median_perm hroi, min?_perm hroi⟩

/-- Two folds: a parsed one with PF 2 and ROI 10, and a failed one. -/
def c9Folds : List WFFold :=
  [{ oos_metrics := some { profit_factor := 2, roi_pct := 10 } }, { oos_metrics := none }]

/-- C9 counterexample: with one successful fold (PF 2, ROI 10) and one failed
fold, the summary's median PF is 1 and its worst PF is 0 — the failed fold's
coerced 0.0 entered the aggregates — whereas over the successfully-parsed
folds alone the median and worst PF would both be 2. -/
theorem C9_summary_cex :
    (wfSummary (3/2) c9Folds).oos_pf_median = some 1 ∧
    (wfSummary (3/2) c9Folds).oos_pf_worst = some 0 ∧
    median ((survivors c9Folds).map foldPF) = some 2 ∧
    ((survivors c9Folds).map foldPF).min? = some 2 ∧
    (wfSummary (3/2) c9Folds).oos_pf_median ≠ median ((survivors c9Folds).map foldPF) ∧
    (wfSummary (3/2) c9Folds).oos_pf_worst ≠ ((survivors c9Folds).map foldPF).min? := by
  refine ⟨?_, ?_, ?_, ?_, ?_, ?_⟩ <;>
    norm_num [wfSummary, median, c9Folds, survivors, foldPF, List.insertionSort,
      List.orderedInsert, List.min?] <;>
    simp_all

end SimpleEA
